import Mathlib

/-!
Shallow embedding of the `as` service-supervisor library (Go package
`go.aledante.io/as`): the run-once attempt step, the supervision loop, the
group orchestrator's validation phase, and environment-key normalization.

Sources embedded:
  * `src/run.go`        — `RunGroupC`, `validateServices`, `runLoop`, `runOnce`
  * `src/options.go`    — `Options`, `DefaultOptions`
  * `src/unnamed/part_001` (env file) — `NormalizeEnvKey`

Go `error` values are modelled by the inductive `GoError`; `nil` errors by
`Option GoError`.  Durations (`time.Duration`, int64 nanoseconds) and Go
`int` are modelled by `Int`.  Wall-clock reads (`time.Since(graceStart)`)
are modelled by an oracle `elapsed : ℕ → Int` giving the elapsed time
observed at the decision point following each attempt.  Side effects the
claims observe (lifecycle calls, log records, sleeps) are collected in an
event trace.
-/

namespace AsSupervisor

/-- Model of Go `error` values flowing through the supervisor.
`wrap tag cause` is `ae.Wrap(tag, cause)`; `errors.Is` unwraps through it.
`panicErr cause` is the error built by the recover handler in `runOnce`
(`ae.NewC(ctx).Cause(errCause).Stack().Related(err).Msg("panic")`); the
`Related(err)` argument is always the `nil` in-flight named return there
(only `svc.Run` can panic in this model, and the assignment `err = svc.Run(ctx)`
has not happened when `Run` panics), so it is not carried. -/
inductive GoError where
  | canceled
  | deadlineExceeded
  | msg (s : String)
  | wrap (tag : String) (cause : GoError)
  | panicErr (cause : GoError)
deriving DecidableEq, Repr

/-- `errors.Is(e, context.Canceled)`: true exactly on `context.Canceled`
itself or on a wrapper chain unwrapping to it. -/
def isCanceledErr : GoError → Bool
  | .canceled => true
  | .wrap _ cause => isCanceledErr cause
  | .panicErr cause => isCanceledErr cause
  | _ => false

/-- A Go `panic` argument: either an `error` value or some other value,
which `runOnce` formats with `ae.Msgf("%v", x)` (for a string, `%v` is the
string itself). -/
inductive PanicValue where
  | errVal (e : GoError)
  | strVal (s : String)
deriving DecidableEq, Repr

/-- The error the recover handler derives from the panicked value:
`case error: errCause = x; default: errCause = ae.Msgf("%v", x)`. -/
def panicCause : PanicValue → GoError
  | .errVal e => e
  | .strVal s => .msg s

/-- What `svc.Run(ctx)` does on one attempt. -/
inductive RunBehavior where
  | ok
  | err (e : GoError)
  | panic (v : PanicValue)
deriving DecidableEq, Repr

/-- One attempt's prescribed behavior of the hosted service's hooks:
`Init` result (`none` = success), `Run` behavior, `Close` result. -/
structure AttemptBehavior where
  initResult : Option GoError
  runBehavior : RunBehavior
  closeResult : Option GoError

/-- A hosted service: identity accessors plus per-attempt hook behavior
(attempts are numbered from 1). -/
structure ServiceModel where
  Name : String
  Namespace : String
  Version : String
  behavior : ℕ → AttemptBehavior

/-- `Options` from `src/options.go` (supervision-relevant fields; durations
in nanoseconds as `Int`, `GraceCount` a Go `int` as `Int`). -/
structure Options where
  RestartOnError : Bool
  RestartOnErrorDelay : Int
  RestartOnPanic : Bool
  RestartOnPanicDelay : Int
  RecoverPanic : Bool
  GracePeriod : Int
  GraceCount : Int
  ShutdownTimeout : Int
  LogDebug : Bool
  LogJson : Bool
  LogColors : Bool
  LogAutoColors : Bool
  EnvPrefix : String
  DisableEnvPrefix : Bool

/-- `DefaultOptions()` from `src/options.go`. -/
def DefaultOptions : Options where
  RestartOnError := true
  RestartOnErrorDelay := 10000000000
  RestartOnPanic := true
  RestartOnPanicDelay := 0
  RecoverPanic := true
  GracePeriod := 60000000000
  GraceCount := 3
  ShutdownTimeout := 30000000000
  LogDebug := false
  LogColors := false
  LogAutoColors := true
  LogJson := true
  EnvPrefix := ""
  DisableEnvPrefix := false

/-- Observable effects of the supervisor: hook invocations, leveled log
records (message text only), and restart-delay sleeps. -/
inductive Event where
  | initCall
  | runCall
  | closeCall
  | logDebug (m : String)
  | logError (m : String)
  | sleep (d : Int)
deriving DecidableEq, Repr

/-- The `(err, isInternal, isPanic)` triple returned by `runOnce`. -/
structure OnceReturn where
  err : Option GoError
  isInternal : Bool
  isPanic : Bool
deriving DecidableEq, Repr

/-- Outcome of one attempt: a normal return, or an unrecovered panic
(propagating out when `RecoverPanic` is off, crashing the goroutine). -/
inductive OnceOutcome where
  | ret (r : OnceReturn)
  | crash (v : PanicValue)
deriving DecidableEq, Repr

/-- `runOnce` from `src/run.go` (lines 221–264), applied to the behavior
prescribed for one attempt.  Order of effects follows the source:
debug log, `Init`; on `Init` error return the wrapped error (not internal).
Then debug log, `Run`; a panic is recovered into a `panicErr` iff
`RecoverPanic` is set (`isPanic = true`, `isInternal` keeps its zero value
`false`); a non-`context.Canceled` error returns wrapped, internal; a `nil`
or cancellation result falls through to `Close`, whose error is only
logged, and the attempt returns `nil`. -/
def runOnce (b : AttemptBehavior) (opts : Options) : OnceOutcome × List Event :=
  match b.initResult with
  | some e =>
      (.ret ⟨some (.wrap "service initialization failed" e), false, false⟩,
       [.logDebug "initializing service", .initCall])
  | none =>
      let pre : List Event :=
        [.logDebug "initializing service", .initCall,
         .logDebug "starting service", .runCall]
      match b.runBehavior with
      | .panic v =>
          if opts.RecoverPanic then
            (.ret ⟨some (.panicErr (panicCause v)), false, true⟩, pre)
          else
            (.crash v, pre)
      | .err e =>
          if !isCanceledErr e then
            (.ret ⟨some (.wrap "service run failed" e), true, false⟩, pre)
          else
            match b.closeResult with
            | some _ =>
                (.ret ⟨none, false, false⟩,
                 pre ++ [.logDebug "shutting down service", .closeCall,
                         .logError "service shutdown failed"])
            | none =>
                (.ret ⟨none, false, false⟩,
                 pre ++ [.logDebug "shutting down service", .closeCall])
      | .ok =>
          match b.closeResult with
          | some _ =>
              (.ret ⟨none, false, false⟩,
               pre ++ [.logDebug "shutting down service", .closeCall,
                       .logError "service shutdown failed"])
          | none =>
              (.ret ⟨none, false, false⟩,
               pre ++ [.logDebug "shutting down service", .closeCall])

/-- Result of the supervision loop: a returned `error` (possibly `nil`), a
crash from an unrecovered panic, or fuel exhaustion (the Go loop is
unbounded; theorems supply sufficient fuel). -/
inductive LoopResult where
  | ret (e : Option GoError)
  | crash (v : PanicValue)
  | fuelOut
deriving DecidableEq, Repr

/-- The body of `runLoop` from `src/run.go` (lines 158–219), from attempt
number `k` with restart counter `graceCount` (Go starts at `k = 1`,
`graceCount = 0`).  `elapsed k` models the `time.Since(graceStart)` read at
the decision point after attempt `k`.  Branch order follows the source:
success; internal-or-no-restart; counter increment; grace-period ceiling;
grace-count ceiling; panic-restart switch and panic delay; delay log/sleep
and iterate. -/
def runLoopFrom (svc : ServiceModel) (opts : Options) (elapsed : ℕ → Int) :
    ℕ → ℕ → Int → LoopResult × List Event
  | 0, _, _ => (.fuelOut, [])
  | fuel + 1, k, graceCount =>
      match runOnce (svc.behavior k) opts with
      | (.crash v, tr) => (.crash v, tr)
      | (.ret r, tr) =>
          match r.err with
          | none => (.ret none, tr)
          | some e =>
              if r.isInternal || !opts.RestartOnError then
                (.ret (some e), tr)
              else
                let graceCount' := graceCount + 1
                if opts.GracePeriod > 0 ∧ elapsed k > opts.GracePeriod then
                  (.ret (some e),
                   tr ++ [.logError "service failed, exceeded grace period"])
                else if opts.GraceCount > 0 ∧ graceCount' > opts.GraceCount then
                  (.ret (some e),
                   tr ++ [.logError "service failed, exceeded grace count"])
                else if r.isPanic ∧ !opts.RestartOnPanic then
                  (.ret (some e), tr)
                else
                  let restartDelay :=
                    if r.isPanic ∧ opts.RestartOnPanicDelay > 0 then
                      opts.RestartOnPanicDelay
                    else
                      opts.RestartOnErrorDelay
                  let tr' :=
                    if restartDelay > 0 then
                      tr ++ [.logError "service failed, restarting after delay",
                             .sleep restartDelay]
                    else
                      tr ++ [.logError "service failed, restarting immediately"]
                  let (res, trRest) := runLoopFrom svc opts elapsed fuel (k + 1) graceCount'
                  (res, tr' ++ trRest)

/-- `runLoop` entered as in the source: first attempt, counter zero. -/
def runLoop (svc : ServiceModel) (opts : Options) (elapsed : ℕ → Int)
    (fuel : ℕ) : LoopResult × List Event :=
  runLoopFrom svc opts elapsed fuel 1 0

/-- Number of attempts recorded in a trace: each attempt invokes `Init`
exactly once at its start. -/
def attemptsIn (tr : List Event) : ℕ := tr.count .initCall

/-- Number of `Close` invocations recorded in a trace. -/
def closeCallsIn (tr : List Event) : ℕ := tr.count .closeCall

/-! ## Group orchestration (`RunGroupC`, `validateServices`) -/

/-- One collected validation violation from `validateServices`:
`ae.New().Attr("name", …).Attr("namespace", …).Msg("duplicate service identity")`,
`errors.New("service name cannot be empty")`, or
`errors.New("service namespace cannot be empty")`. -/
inductive ValidationErr where
  | dupIdentity (name ns : String)
  | emptyName
  | emptyNamespace
deriving DecidableEq, Repr

/-- `ae.WrapMany(tag, errs...)`: one aggregate error holding every
collected violation; by the caller's use it is `nil` when `errs` is empty
(the external `ae` library's empty-list contract). -/
structure AggregateErr where
  tag : String
  errs : List ValidationErr
deriving DecidableEq, Repr

/-- The loop body of `validateServices` (`src/run.go` lines 114–130):
walks the whole slice, carrying the set of identities seen so far; a
repeated `(name, namespace)` yields a duplicate-identity error (and skips
the emptiness checks for that entry, per the `continue`); a first-seen
entry contributes an error per empty field. -/
def validateAux : List ServiceModel → List (String × String) → List ValidationErr
  | [], _ => []
  | svc :: rest, seen =>
      let ident := (svc.Name, svc.Namespace)
      if ident ∈ seen then
        .dupIdentity svc.Name svc.Namespace :: validateAux rest seen
      else
        ((if svc.Name = "" then [ValidationErr.emptyName] else []) ++
         (if svc.Namespace = "" then [ValidationErr.emptyNamespace] else [])) ++
        validateAux rest (ident :: seen)

/-- The identity set after processing a prefix of the slice (the
`identities` map's contents, as a list). -/
def seenAfter : List ServiceModel → List (String × String) → List (String × String)
  | [], seen => seen
  | svc :: rest, seen =>
      let ident := (svc.Name, svc.Namespace)
      if ident ∈ seen then seenAfter rest seen
      else seenAfter rest (ident :: seen)

/-- `validateServices` from `src/run.go` (lines 106–137): collect every
violation, then wrap them all under one tag — `"invalid service group"`
for a multi-service slice, `"invalid service"` otherwise. -/
def validateServices (svcs : List ServiceModel) : Option AggregateErr :=
  if validateAux svcs [] = [] then none
  else if svcs.length > 1 then some ⟨"invalid service group", validateAux svcs []⟩
  else some ⟨"invalid service", validateAux svcs []⟩

/-- How far `RunGroupC` got and what it returned: the empty-slice `nil`
fast path, a validation error, a wrapped OTEL-init failure, or the point
where the per-service supervision goroutines are spawned. -/
inductive GroupPhase where
  | returnedNilEmpty
  | returnedValidation (e : AggregateErr)
  | returnedOtel (e : GoError)
  | spawnedLoops
deriving DecidableEq, Repr

/-- Steps of `RunGroupC` that executed, in order. -/
inductive GroupStep where
  | validateStep
  | otelInitStep
  | spawnStep
deriving DecidableEq, Repr

/-- `RunGroupC` from `src/run.go` (lines 72–104) up to the spawning of the
supervision goroutines.  `otelRes` models the outcome of the external
`initOtel` collaborator.  An empty slice returns `nil` before anything
else runs; a validation error is returned before OTEL init; an OTEL-init
error is returned wrapped, before any goroutine is spawned. -/
def RunGroupC (svcs : List ServiceModel) (otelRes : Option GoError) :
    GroupPhase × List GroupStep :=
  if svcs.length = 0 then
    (.returnedNilEmpty, [])
  else
    match validateServices svcs with
    | some e => (.returnedValidation e, [.validateStep])
    | none =>
        match otelRes with
        | some e =>
            (.returnedOtel (.wrap "OTEL initialization failed" e),
             [.validateStep, .otelInitStep])
        | none => (.spawnedLoops, [.validateStep, .otelInitStep, .spawnStep])

/-! ## Environment-key normalization (`NormalizeEnvKey`) -/

/-- Unicode code points of a Go string, as naturals. -/
abbrev Runes := List ℕ

/-- Membership in Unicode category `Mn` (`unicode.In(r, unicode.Mn)`),
modelled for the code points this development exercises: the Combining
Diacritical Marks block U+0300–U+036F (every code point of which is `Mn`).
The full category table lives in Go's `unicode` package data. -/
def isMn (r : ℕ) : Bool := 768 ≤ r && r ≤ 879

/-- NFD decomposition (`norm.NFD.String`, external
`golang.org/x/text/unicode/norm` table), modelled for the code points this
development exercises: the precomposed Latin letters É (U+00C9) and
é (U+00E9) decompose to the base letter followed by U+0301 COMBINING ACUTE
ACCENT; other code points map to themselves. -/
def nfd (r : ℕ) : Runes :=
  if r = 201 then [69, 769]
  else if r = 233 then [101, 769]
  else [r]

/-- The guard `(r >= 'A' && r <= 'Z') || (r >= 'a' && r <= 'z') || (r >= '0' && r <= '9')`. -/
def isAsciiAlnum (r : ℕ) : Bool :=
  (65 ≤ r && r ≤ 90) || (97 ≤ r && r ≤ 122) || (48 ≤ r && r ≤ 57)

/-- `unicode.ToUpper`, as applied in `NormalizeEnvKey` (only ever reached
on ASCII alphanumerics by the guard): maps `a`–`z` to `A`–`Z`. -/
def toUpperRune (r : ℕ) : ℕ := if 97 ≤ r && r ≤ 122 then r - 32 else r

/-- The accumulation loop of `NormalizeEnvKey` (env file lines 123–141):
skip combining marks; append the uppercased rune when alphanumeric;
otherwise append `_` unless the output already ends in `_`. -/
def normAccum : Runes → Runes → Runes
  | [], out => out
  | r :: rest, out =>
      if isMn r then normAccum rest out
      else if isAsciiAlnum r then normAccum rest (out ++ [toUpperRune r])
      else if out.getLast? = some 95 then normAccum rest out
      else normAccum rest (out ++ [95])

/-- `strings.Trim(s, "_")`: drop leading and trailing underscores. -/
def trimUnderscore (l : Runes) : Runes :=
  ((l.dropWhile (fun r => r == 95)).reverse.dropWhile (fun r => r == 95)).reverse

/-- `NormalizeEnvKey` from the env file (lines 119–145): NFD-decompose the
whole string, run the accumulation loop over the resulting runes, trim
edge underscores. -/
def NormalizeEnvKey (name : Runes) : Runes :=
  trimUnderscore (normAccum (name.flatMap nfd) [])

/-! ## Basic attempt-level lemmas -/

/-- The trace of an attempt that reaches `Run` and stops there. -/
def runAttemptTrace : List Event :=
  [.logDebug "initializing service", .initCall,
   .logDebug "starting service", .runCall]

theorem runOnce_runFail (e : GoError) (he : isCanceledErr e = false)
    (closeRes : Option GoError) (opts : Options) :
    runOnce ⟨none, .err e, closeRes⟩ opts =
      (.ret ⟨some (.wrap "service run failed" e), true, false⟩, runAttemptTrace) := by
  simp [runOnce, he, runAttemptTrace]

theorem runOnce_panic_recovered (v : PanicValue) (closeRes : Option GoError)
    (opts : Options) (hr : opts.RecoverPanic = true) :
    runOnce ⟨none, .panic v, closeRes⟩ opts =
      (.ret ⟨some (.panicErr (panicCause v)), false, true⟩, runAttemptTrace) := by
  simp [runOnce, hr, runAttemptTrace]

theorem runLoopFrom_internal (svc : ServiceModel) (opts : Options)
    (elapsed : ℕ → Int) (fuel k : ℕ) (gc : Int) (e : GoError) (tr : List Event)
    (h : runOnce (svc.behavior k) opts = (.ret ⟨some e, true, false⟩, tr)) :
    runLoopFrom svc opts elapsed (fuel + 1) k gc = (.ret (some e), tr) := by
  simp [runLoopFrom, h]

/-- External behavior of a recovered panic when panic-restart is off: the
loop returns the attempt's error right after the attempt, whatever the
grace settings, the restart-on-error flag, the attempt number and the
counter state. -/
theorem runLoopFrom_panic_noRestart (svc : ServiceModel) (opts : Options)
    (elapsed : ℕ → Int) (fuel k : ℕ) (gc : Int) (v : PanicValue)
    (closeRes : Option GoError)
    (hb : svc.behavior k = ⟨none, .panic v, closeRes⟩)
    (hrec : opts.RecoverPanic = true) (hnp : opts.RestartOnPanic = false) :
    (runLoopFrom svc opts elapsed (fuel + 1) k gc).1
        = .ret (some (.panicErr (panicCause v)))
    ∧ attemptsIn (runLoopFrom svc opts elapsed (fuel + 1) k gc).2 = 1 := by
  have h1 := runOnce_panic_recovered v closeRes opts hrec
  rw [← hb] at h1
  cases hre : opts.RestartOnError with
  | false =>
      simp [runLoopFrom, h1, hre, attemptsIn, runAttemptTrace]
  | true =>
      by_cases hgp : opts.GracePeriod > 0 ∧ elapsed k > opts.GracePeriod
      · simp [runLoopFrom, h1, hre, hgp, attemptsIn, runAttemptTrace]
      · by_cases hgc : opts.GraceCount > 0 ∧ gc + 1 > opts.GraceCount
        · simp [runLoopFrom, h1, hre, hgp, hgc, attemptsIn, runAttemptTrace]
        · simp [runLoopFrom, h1, hre, hgp, hgc, hnp, attemptsIn, runAttemptTrace]

/-! ## Claim theorems -/

/-- A service whose hooks behave identically on every attempt: `Init`
succeeds, `Run` returns the error `X`, `Close` returns `closeRes`. -/
def runFailServiceX (closeRes : Option GoError) : ServiceModel :=
  ⟨"svc", "ns", "1.0.0", fun _ => ⟨none, .err (.msg "X"), closeRes⟩⟩

/-- C1: the spec says that with `RestartOnError` enabled, `GracePeriod`
zero and `GraceCount = N > 0`, a service whose `Run` always fails
(non-cancellation) is attempted `N + 1` times and the loop then terminates
logging the exceeded count dimension.  The code instead marks every run
failure internal (`runOnce` returns `isInternal = true`), so the loop
performs exactly one attempt, returns the wrapped run error, and never
logs grace-count exhaustion — contradicting the spec and the repository's
own documentation of `RestartOnError`. -/
theorem c1_run_failure_never_restarted (N : Int) (hN : 0 < N)
    (closeRes : Option GoError) (elapsed : ℕ → Int) (fuel : ℕ) :
    runLoop (runFailServiceX closeRes)
        { DefaultOptions with GracePeriod := 0, GraceCount := N } elapsed (fuel + 1)
      = (.ret (some (.wrap "service run failed" (.msg "X"))), runAttemptTrace)
    ∧ attemptsIn (runLoop (runFailServiceX closeRes)
        { DefaultOptions with GracePeriod := 0, GraceCount := N } elapsed (fuel + 1)).2 = 1
    ∧ Event.logError "service failed, exceeded grace count"
        ∉ (runLoop (runFailServiceX closeRes)
        { DefaultOptions with GracePeriod := 0, GraceCount := N } elapsed (fuel + 1)).2 := by
  have h := runLoopFrom_internal (runFailServiceX closeRes)
    { DefaultOptions with GracePeriod := 0, GraceCount := N } elapsed fuel 1 0
    (.wrap "service run failed" (.msg "X")) runAttemptTrace
    (runOnce_runFail (.msg "X") rfl closeRes _)
  refine ⟨h, ?_, ?_⟩ <;> rw [runLoop, h] <;> simp [attemptsIn, runAttemptTrace]

theorem c1_run_failure_never_restarted_witness :
    runLoop (runFailServiceX none)
        { DefaultOptions with GracePeriod := 0, GraceCount := 2 } (fun _ => 0) 3
      = (.ret (some (.wrap "service run failed" (.msg "X"))), runAttemptTrace) :=
  (c1_run_failure_never_restarted 2 (by decide) none (fun _ => 0) 2).1

/-- C2: the spec says `Close` is invoked exactly once per attempt even
when `Init` succeeds and `Run` fails.  In the code, a non-cancellation
`Run` failure returns from `runOnce` before the `Close` call, so `Close`
is invoked zero times on such an attempt (the attempt's error is the
wrapped run error, untouched by any close error). -/
theorem c2_close_skipped_on_run_failure (opts : Options) (e : GoError)
    (he : isCanceledErr e = false) (closeRes : Option GoError) :
    runOnce ⟨none, .err e, closeRes⟩ opts
      = (.ret ⟨some (.wrap "service run failed" e), true, false⟩, runAttemptTrace)
    ∧ closeCallsIn (runOnce ⟨none, .err e, closeRes⟩ opts).2 = 0 := by
  have h := runOnce_runFail e he closeRes opts
  exact ⟨h, by rw [h]; simp [closeCallsIn, runAttemptTrace]⟩

theorem c2_close_skipped_on_run_failure_witness :
    closeCallsIn (runOnce ⟨none, .err (.msg "X"), some (.msg "closeErr")⟩ DefaultOptions).2 = 0 :=
  (c2_close_skipped_on_run_failure DefaultOptions (.msg "X") rfl (some (.msg "closeErr"))).2

/-- C3: with `RestartOnError = false`, a single non-cancellation `Run`
failure terminates the loop on the first attempt, returning exactly that
error wrapped with the `"service run failed"` tag. -/
theorem c3_no_restart_single_run_failure (svc : ServiceModel) (opts : Options)
    (e : GoError) (closeRes : Option GoError)
    (hb : svc.behavior 1 = ⟨none, .err e, closeRes⟩)
    (he : isCanceledErr e = false) (hre : opts.RestartOnError = false)
    (elapsed : ℕ → Int) (fuel : ℕ) :
    runLoop svc opts elapsed (fuel + 1)
      = (.ret (some (.wrap "service run failed" e)), runAttemptTrace)
    ∧ attemptsIn (runLoop svc opts elapsed (fuel + 1)).2 = 1 := by
  have h1 := runOnce_runFail e he closeRes opts
  rw [← hb] at h1
  have h := runLoopFrom_internal svc opts elapsed fuel 1 0
    (.wrap "service run failed" e) runAttemptTrace h1
  exact ⟨h, by rw [runLoop, h]; simp [attemptsIn, runAttemptTrace]⟩

theorem c3_no_restart_single_run_failure_witness :
    runLoop (runFailServiceX none) { DefaultOptions with RestartOnError := false }
        (fun _ => 0) 5
      = (.ret (some (.wrap "service run failed" (.msg "X"))), runAttemptTrace) :=
  (c3_no_restart_single_run_failure (runFailServiceX none)
    { DefaultOptions with RestartOnError := false } (.msg "X") none rfl rfl rfl
    (fun _ => 0) 4).1

/-- A service whose `Run` always panics with the non-error value `"boom"`. -/
def panicBoomService (closeRes : Option GoError) : ServiceModel :=
  ⟨"svc", "ns", "1.0.0", fun _ => ⟨none, .panic (.strVal "boom"), closeRes⟩⟩

/-- A service whose `Run` always panics with an `error` value `e`. -/
def panicErrService (e : GoError) (closeRes : Option GoError) : ServiceModel :=
  ⟨"svc", "ns", "1.0.0", fun _ => ⟨none, .panic (.errVal e), closeRes⟩⟩

/-- C4: under `RecoverPanic = true, RestartOnPanic = false` over defaults,
a `Run` panicking with `"boom"` terminates the loop after exactly one
attempt with the recovered-panic error whose cause is the formatted value
(`ae.Msgf("%v", "boom")`, i.e. message `"boom"`); a panic with an `error`
value passes that value through unchanged as the cause. -/
theorem c4_panic_boom_terminates (closeRes : Option GoError)
    (elapsed : ℕ → Int) (fuel : ℕ) :
    (runLoop (panicBoomService closeRes)
        { DefaultOptions with RecoverPanic := true, RestartOnPanic := false }
        elapsed (fuel + 1)).1
      = .ret (some (.panicErr (.msg "boom")))
    ∧ attemptsIn (runLoop (panicBoomService closeRes)
        { DefaultOptions with RecoverPanic := true, RestartOnPanic := false }
        elapsed (fuel + 1)).2 = 1
    ∧ (∀ (e : GoError) (closeRes' : Option GoError),
        (runLoop (panicErrService e closeRes')
            { DefaultOptions with RecoverPanic := true, RestartOnPanic := false }
            elapsed (fuel + 1)).1
          = .ret (some (.panicErr e)))
    ∧ panicCause (.strVal "boom") = .msg "boom" := by
  have h1 := runLoopFrom_panic_noRestart (panicBoomService closeRes)
    { DefaultOptions with RecoverPanic := true, RestartOnPanic := false }
    elapsed fuel 1 0 (.strVal "boom") closeRes rfl rfl rfl
  refine ⟨h1.1, h1.2, ?_, rfl⟩
  intro e closeRes'
  exact (runLoopFrom_panic_noRestart (panicErrService e closeRes')
    { DefaultOptions with RecoverPanic := true, RestartOnPanic := false }
    elapsed fuel 1 0 (.errVal e) closeRes' rfl rfl rfl).1

/-- C5: a `Run` result matching `context.Canceled` is a clean stop:
`Close` is still invoked once, and the loop exits returning `nil`,
whatever the restart configuration. -/
theorem c5_cancellation_clean_stop (svc : ServiceModel) (opts : Options)
    (e : GoError) (closeRes : Option GoError)
    (hb : svc.behavior 1 = ⟨none, .err e, closeRes⟩)
    (he : isCanceledErr e = true) (elapsed : ℕ → Int) (fuel : ℕ) :
    (runLoop svc opts elapsed (fuel + 1)).1 = .ret none
    ∧ closeCallsIn (runLoop svc opts elapsed (fuel + 1)).2 = 1
    ∧ attemptsIn (runLoop svc opts elapsed (fuel + 1)).2 = 1 := by
  cases closeRes with
  | none =>
      have h1 : runOnce (svc.behavior 1) opts
          = (.ret ⟨none, false, false⟩,
             runAttemptTrace ++ [.logDebug "shutting down service", .closeCall]) := by
        rw [hb]; simp [runOnce, he, runAttemptTrace]
      rw [runLoop]
      simp [runLoopFrom, h1, closeCallsIn, attemptsIn, runAttemptTrace]
  | some ce =>
      have h1 : runOnce (svc.behavior 1) opts
          = (.ret ⟨none, false, false⟩,
             runAttemptTrace ++ [.logDebug "shutting down service", .closeCall,
                                 .logError "service shutdown failed"]) := by
        rw [hb]; simp [runOnce, he, runAttemptTrace]
      rw [runLoop]
      simp [runLoopFrom, h1, closeCallsIn, attemptsIn, runAttemptTrace]

/-- A service whose `Run` always returns `context.Canceled`. -/
def cancelService (closeRes : Option GoError) : ServiceModel :=
  ⟨"svc", "ns", "1.0.0", fun _ => ⟨none, .err .canceled, closeRes⟩⟩

theorem c5_cancellation_clean_stop_witness :
    (runLoop (cancelService (some (.msg "closeErr"))) DefaultOptions (fun _ => 0) 4).1
      = .ret none :=
  (c5_cancellation_clean_stop (cancelService (some (.msg "closeErr"))) DefaultOptions
    .canceled (some (.msg "closeErr")) rfl rfl (fun _ => 0) 3).1

/-- C8: when an attempt's failure is a recovered panic and `RestartOnPanic`
is off while `RestartOnError` is on, the loop returns that attempt's error
immediately after the attempt, for every `GracePeriod` and `GraceCount`
setting (the grace branches and the panic branch all return the same
attempt error), at any attempt number and counter state. -/
theorem c8_panic_stops_regardless_of_budget (svc : ServiceModel) (opts : Options)
    (v : PanicValue) (closeRes : Option GoError) (k : ℕ) (gc : Int)
    (hb : svc.behavior k = ⟨none, .panic v, closeRes⟩)
    (hrec : opts.RecoverPanic = true) (hnp : opts.RestartOnPanic = false)
    (hre : opts.RestartOnError = true) (elapsed : ℕ → Int) (fuel : ℕ) :
    (runLoopFrom svc opts elapsed (fuel + 1) k gc).1
        = .ret (some (.panicErr (panicCause v)))
    ∧ attemptsIn (runLoopFrom svc opts elapsed (fuel + 1) k gc).2 = 1 :=
  runLoopFrom_panic_noRestart svc opts elapsed fuel k gc v closeRes hb hrec hnp

theorem c8_panic_stops_regardless_of_budget_witness :
    (runLoopFrom (panicBoomService none)
        { DefaultOptions with RestartOnPanic := false, GracePeriod := 1, GraceCount := 1 }
        (fun _ => 5) 3 2 7).1
      = .ret (some (.panicErr (.msg "boom"))) :=
  (c8_panic_stops_regardless_of_budget (panicBoomService none)
    { DefaultOptions with RestartOnPanic := false, GracePeriod := 1, GraceCount := 1 }
    (.strVal "boom") none 2 7 rfl rfl rfl rfl (fun _ => 5) 2).1

/-- C9: only errors matching `context.Canceled` are swallowed; any other
`Run` error (e.g. `context.DeadlineExceeded`) is wrapped with the
`"service run failed"` tag, marked internal, and terminates the loop on
that attempt even under `RestartOnError = true` — at any attempt number
and counter state. -/
theorem c9_non_canceled_run_error_internal (svc : ServiceModel) (opts : Options)
    (e : GoError) (closeRes : Option GoError) (k : ℕ) (gc : Int)
    (hb : svc.behavior k = ⟨none, .err e, closeRes⟩)
    (he : isCanceledErr e = false) (elapsed : ℕ → Int) (fuel : ℕ) :
    runOnce ⟨none, .err e, closeRes⟩ opts
      = (.ret ⟨some (.wrap "service run failed" e), true, false⟩, runAttemptTrace)
    ∧ runLoopFrom svc opts elapsed (fuel + 1) k gc
      = (.ret (some (.wrap "service run failed" e)), runAttemptTrace)
    ∧ isCanceledErr .deadlineExceeded = false
    ∧ isCanceledErr .canceled = true := by
  have h1 := runOnce_runFail e he closeRes opts
  have h1' := h1
  rw [← hb] at h1'
  exact ⟨h1, runLoopFrom_internal svc opts elapsed fuel k gc _ _ h1', rfl, rfl⟩

/-- A service whose `Run` always returns `context.DeadlineExceeded`. -/
def deadlineService : ServiceModel :=
  ⟨"svc", "ns", "1.0.0", fun _ => ⟨none, .err .deadlineExceeded, none⟩⟩

theorem c9_non_canceled_run_error_internal_witness :
    runLoopFrom deadlineService DefaultOptions (fun _ => 0) 6 1 0
      = (.ret (some (.wrap "service run failed" .deadlineExceeded)), runAttemptTrace) :=
  (c9_non_canceled_run_error_internal deadlineService DefaultOptions .deadlineExceeded
    none 1 0 rfl rfl (fun _ => 0) 5).2.1

/-- C10: `RunGroupC` on an empty service slice returns `nil` at once; its
step trace is empty — no validation, no telemetry initialization, no
supervision loop is started. -/
theorem c10_empty_group_nil (otelRes : Option GoError) :
    RunGroupC [] otelRes = (.returnedNilEmpty, []) := by
  simp [RunGroupC]

/-! ## Group validation (C6) -/

/-- The property `validateServices` enforces: pairwise-distinct
`(name, namespace)` identities and non-empty name and namespace fields. -/
def ValidGroup (svcs : List ServiceModel) : Prop :=
  svcs.Pairwise (fun a b => (a.Name, a.Namespace) ≠ (b.Name, b.Namespace)) ∧
  ∀ s ∈ svcs, s.Name ≠ "" ∧ s.Namespace ≠ ""

theorem validateAux_eq_nil_iff (svcs : List ServiceModel) :
    ∀ seen : List (String × String),
      (validateAux svcs seen = [] ↔
        (∀ s ∈ svcs, (s.Name, s.Namespace) ∉ seen) ∧ ValidGroup svcs) := by
  induction svcs with
  | nil => intro seen; simp [validateAux, ValidGroup]
  | cons s rest ih =>
      intro seen
      by_cases hm : (s.Name, s.Namespace) ∈ seen
      · simp only [validateAux, if_pos hm]
        constructor
        · intro h; cases h
        · rintro ⟨hall, -⟩
          exact absurd hm (hall s (List.mem_cons_self s rest))
      · simp only [validateAux, if_neg hm, List.append_eq_nil, ih, ValidGroup,
          List.pairwise_cons, List.mem_cons, List.mem_cons]
        constructor
        · rintro ⟨⟨h1, h2⟩, hseen', ⟨hpw, hne⟩⟩
          have hn : s.Name ≠ "" := by
            intro hc; rw [hc] at h1; simp at h1
          have hns : s.Namespace ≠ "" := by
            intro hc; rw [hc] at h2; simp at h2
          refine ⟨?_, ⟨?_, hpw⟩, ?_⟩
          · rintro t (rfl | ht)
            · exact hm
            · have := hseen' t ht
              simp only [List.mem_cons] at this
              exact fun hc => this (Or.inr hc)
          · intro t ht
            have := hseen' t ht
            simp only [List.mem_cons] at this
            intro hc
            exact this (Or.inl hc.symm)
          · rintro t (rfl | ht)
            · exact ⟨hn, hns⟩
            · exact hne t ht
        · rintro ⟨hseen, ⟨hdist, hpw⟩, hne⟩
          obtain ⟨hn, hns⟩ := hne s (Or.inl rfl)
          refine ⟨⟨?_, ?_⟩, ?_, hpw, fun t ht => hne t (Or.inr ht)⟩
          · simp [hn]
          · simp [hns]
          · intro t ht
            rintro (hc | hc)
            · exact hdist t ht hc.symm
            · exact hseen t (Or.inr ht) hc

theorem validateAux_append (pre post : List ServiceModel) :
    ∀ seen : List (String × String),
      validateAux (pre ++ post) seen
        = validateAux pre seen ++ validateAux post (seenAfter pre seen) := by
  induction pre with
  | nil => intro seen; simp [validateAux, seenAfter]
  | cons s rest ih =>
      intro seen
      by_cases hm : (s.Name, s.Namespace) ∈ seen
      · simp [validateAux, seenAfter, hm, ih]
      · simp [validateAux, seenAfter, hm, ih, List.append_assoc]

/-- C6: the group orchestrator validates identities before starting
anything: `validateServices` accepts exactly the groups with pairwise
distinct `(name, namespace)` and non-empty fields; on failure `RunGroupC`
returns the single aggregate error carrying the whole collected violation
list, having executed only the validation step — no telemetry init, no
goroutine spawn, no lifecycle call; and the collection walks the entire
slice (it decomposes over list concatenation) rather than stopping at the
first violation. -/
theorem c6_group_validation (svcs : List ServiceModel) (otelRes : Option GoError) :
    (validateServices svcs = none ↔ ValidGroup svcs)
    ∧ (∀ e, validateServices svcs = some e →
        RunGroupC svcs otelRes = (.returnedValidation e, [.validateStep])
        ∧ e.errs = validateAux svcs [] ∧ e.errs ≠ [])
    ∧ (∀ pre post seen, validateAux (pre ++ post) seen
        = validateAux pre seen ++ validateAux post (seenAfter pre seen)) := by
  have hbase := validateAux_eq_nil_iff svcs ([] : List (String × String))
  have hiff : validateAux svcs [] = [] ↔ ValidGroup svcs :=
    ⟨fun h => (hbase.mp h).2,
     fun h => hbase.mpr ⟨fun s _ => List.not_mem_nil _, h⟩⟩
  refine ⟨?_, ?_, fun pre post seen => validateAux_append pre post seen⟩
  · constructor
    · intro hv
      rw [← hiff]
      by_contra hne
      simp only [validateServices, if_neg hne] at hv
      split at hv <;> cases hv
    · intro hvg
      have h := hiff.mpr hvg
      simp [validateServices, h]
  · intro e hv
    have hne : ¬ validateAux svcs [] = [] := by
      intro h
      simp [validateServices, h] at hv
    have hlen : svcs ≠ [] := by
      rintro rfl
      exact hne rfl
    have h0 : ¬ svcs.length = 0 := by
      simpa [List.length_eq_zero] using hlen
    have herrs : e.errs = validateAux svcs [] := by
      have hv' := hv
      simp only [validateServices, if_neg hne] at hv'
      split at hv' <;> (cases hv'; exact rfl)
    refine ⟨?_, herrs, by rw [herrs]; exact hne⟩
    simp [RunGroupC, h0, hv]

/-- Two services sharing the identity `(name = "a", namespace = "b")`. -/
def svcDupA : ServiceModel := ⟨"a", "b", "1", fun _ => ⟨none, .ok, none⟩⟩

/-- Second service with the same `(name, namespace)` as `svcDupA`. -/
def svcDupB : ServiceModel := ⟨"a", "b", "2", fun _ => ⟨none, .ok, none⟩⟩

theorem c6_group_validation_witness :
    RunGroupC [svcDupA, svcDupB] none
      = (.returnedValidation ⟨"invalid service group", [.dupIdentity "a" "b"]⟩,
         [.validateStep]) :=
  ((c6_group_validation [svcDupA, svcDupB] none).2.1
    ⟨"invalid service group", [.dupIdentity "a" "b"]⟩ rfl).1

/-! ## Environment-key normalization (C7) -/

/-- A rune admissible in a normalized key: an ASCII uppercase letter, an
ASCII digit, or the underscore. -/
def goodKeyRune (r : ℕ) : Bool :=
  (65 ≤ r && r ≤ 90) || (48 ≤ r && r ≤ 57) || (r == 95)

/-- Adjacent runes are not both underscores. -/
def noAdj95 (a b : ℕ) : Prop := ¬(a = 95 ∧ b = 95)

theorem toUpperRune_good (r : ℕ) (h : isAsciiAlnum r = true) :
    goodKeyRune (toUpperRune r) = true ∧ toUpperRune r ≠ 95 := by
  simp only [isAsciiAlnum, Bool.or_eq_true, Bool.and_eq_true,
    decide_eq_true_eq] at h
  simp only [goodKeyRune, toUpperRune, Bool.or_eq_true, Bool.and_eq_true,
    decide_eq_true_eq, beq_iff_eq]
  split <;> omega

theorem normAccum_good (rs : Runes) :
    ∀ out : Runes, (∀ r ∈ out, goodKeyRune r = true) → List.Chain' noAdj95 out →
      (∀ r ∈ normAccum rs out, goodKeyRune r = true)
      ∧ List.Chain' noAdj95 (normAccum rs out) := by
  induction rs with
  | nil => intro out h1 h2; exact ⟨h1, h2⟩
  | cons r rest ih =>
      intro out h1 h2
      by_cases hmn : isMn r = true
      · simpa [normAccum, hmn] using ih out h1 h2
      · by_cases hal : isAsciiAlnum r = true
        · have hgu := toUpperRune_good r hal
          have h1' : ∀ x ∈ out ++ [toUpperRune r], goodKeyRune x = true := by
            intro x hx
            rcases List.mem_append.mp hx with hx | hx
            · exact h1 x hx
            · rcases List.mem_singleton.mp hx with rfl
              exact hgu.1
          have h2' : List.Chain' noAdj95 (out ++ [toUpperRune r]) := by
            refine List.chain'_append.mpr ⟨h2, List.chain'_singleton _, ?_⟩
            intro x _ y hy
            rcases Option.mem_some_iff.mp hy with rfl
            exact fun hc => hgu.2 hc.2
          simpa [normAccum, hmn, hal] using ih (out ++ [toUpperRune r]) h1' h2'
        · by_cases hlast : out.getLast? = some 95
          · simpa [normAccum, hmn, hal, hlast] using ih out h1 h2
          · have h1' : ∀ x ∈ out ++ [95], goodKeyRune x = true := by
              intro x hx
              rcases List.mem_append.mp hx with hx | hx
              · exact h1 x hx
              · rcases List.mem_singleton.mp hx with rfl
                rfl
            have h2' : List.Chain' noAdj95 (out ++ [95]) := by
              refine List.chain'_append.mpr ⟨h2, List.chain'_singleton _, ?_⟩
              intro x hx y hy
              rcases Option.mem_some_iff.mp hy with rfl
              rintro ⟨rfl, -⟩
              exact hlast hx
            simpa [normAccum, hmn, hal, hlast] using ih (out ++ [95]) h1' h2'

theorem normAccum_all95 (rs : Runes) :
    ∀ out : Runes, (∀ r ∈ rs, isAsciiAlnum r = false) → (∀ x ∈ out, x = 95) →
      ∀ x ∈ normAccum rs out, x = 95 := by
  induction rs with
  | nil => intro out _ hout; simpa [normAccum] using hout
  | cons r rest ih =>
      intro out hrs hout
      have hal : isAsciiAlnum r = false := hrs r (List.mem_cons_self r rest)
      have hrs' : ∀ x ∈ rest, isAsciiAlnum x = false :=
        fun x hx => hrs x (List.mem_cons_of_mem r hx)
      by_cases hmn : isMn r = true
      · simpa [normAccum, hmn] using ih out hrs' hout
      · by_cases hlast : out.getLast? = some 95
        · simpa [normAccum, hmn, hal, hlast] using ih out hrs' hout
        · have hout' : ∀ x ∈ out ++ [95], x = 95 := by
            intro x hx
            rcases List.mem_append.mp hx with hx | hx
            · exact hout x hx
            · exact List.mem_singleton.mp hx
          simpa [normAccum, hmn, hal, hlast] using ih (out ++ [95]) hrs' hout'

/-- The head of `dropWhile p l` does not satisfy `p`. -/
theorem head?_dropWhile_false (p : ℕ → Bool) (l : Runes) :
    ∀ x, (l.dropWhile p).head? = some x → p x = false := by
  induction l with
  | nil => intro x hx; simp at hx
  | cons a l ih =>
      intro x hx
      by_cases ha : p a = true
      · rw [List.dropWhile_cons_of_pos ha] at hx
        exact ih x hx
      · rw [List.dropWhile_cons_of_neg ha] at hx
        simp only [List.head?_cons, Option.some_inj] at hx
        rw [← hx]
        exact Bool.eq_false_iff.mpr ha

theorem trimUnderscore_eq (l : Runes) :
    trimUnderscore l
      = List.rdropWhile (fun r => r == 95) (l.dropWhile (fun r => r == 95)) := rfl

theorem trimUnderscore_sublist (l : Runes) : List.Sublist (trimUnderscore l) l := by
  rw [trimUnderscore_eq]
  exact ((List.rdropWhile_prefix _ _).sublist).trans
    ((List.dropWhile_suffix _).sublist)

theorem trimUnderscore_chain' (l : Runes) (h : List.Chain' noAdj95 l) :
    List.Chain' noAdj95 (trimUnderscore l) := by
  rw [trimUnderscore_eq]
  have h1 : List.Chain' noAdj95 (l.dropWhile (fun r => r == 95)) := by
    have hsplit := List.takeWhile_append_dropWhile (fun r => r == 95) l
    rw [← hsplit] at h
    exact (List.chain'_append.mp h).2.1
  obtain ⟨t, ht⟩ := List.rdropWhile_prefix (fun r => r == 95)
    (l.dropWhile (fun r => r == 95))
  rw [← ht] at h1
  exact (List.chain'_append.mp h1).1

theorem trimUnderscore_head (l : Runes) :
    (trimUnderscore l).head? ≠ some 95 := by
  rw [trimUnderscore_eq]
  set m := l.dropWhile (fun r => r == 95) with hm
  cases hres : List.rdropWhile (fun r => r == 95) m with
  | nil => simp
  | cons x xs =>
      obtain ⟨t, ht⟩ := List.rdropWhile_prefix (fun r => r == 95) m
      rw [hres] at ht
      have hhm : m.head? = some x := by
        rw [← ht]; rfl
      have hne := head?_dropWhile_false (fun r => r == 95) l x (hm ▸ hhm)
      simp only [beq_eq_false_iff_ne] at hne
      simp only [List.head?_cons, ne_eq, Option.some_inj]
      exact fun hc => hne hc

theorem trimUnderscore_getLast (l : Runes) :
    (trimUnderscore l).getLast? ≠ some 95 := by
  rw [trimUnderscore_eq]
  set m := l.dropWhile (fun r => r == 95)
  by_cases hres : List.rdropWhile (fun r => r == 95) m = []
  · simp [hres]
  · have hlast := List.rdropWhile_last_not (fun r => r == 95) m hres
    rw [List.getLast?_eq_getLast _ hres]
    intro hc
    have h95 := Option.some_inj.mp hc
    apply hlast
    simp [h95]

/-- C7: `NormalizeEnvKey` maps `"my-Énv.key"` to `"MY_ENV_KEY"` (code
points given numerically); every output rune is an uppercase ASCII letter,
a digit, or an underscore; the output never starts or ends with an
underscore; no two consecutive underscores survive (runs are collapsed);
and an input with no alphanumeric content after decomposition normalizes
to the empty string. -/
theorem c7_normalize_env_key :
    NormalizeEnvKey [109, 121, 45, 201, 110, 118, 46, 107, 101, 121]
      = [77, 89, 95, 69, 78, 86, 95, 75, 69, 89]
    ∧ (∀ name : Runes, ∀ r ∈ NormalizeEnvKey name, goodKeyRune r = true)
    ∧ (∀ name : Runes, (NormalizeEnvKey name).head? ≠ some 95
        ∧ (NormalizeEnvKey name).getLast? ≠ some 95)
    ∧ (∀ name : Runes, List.Chain' noAdj95 (NormalizeEnvKey name))
    ∧ (∀ name : Runes, (∀ r ∈ name.flatMap nfd, isAsciiAlnum r = false) →
        NormalizeEnvKey name = []) := by
  refine ⟨by decide, ?_, ?_, ?_, ?_⟩
  · intro name r hr
    have hinv := normAccum_good (name.flatMap nfd) [] (by simp) (by simp)
    exact hinv.1 r ((trimUnderscore_sublist _).mem hr)
  · intro name
    exact ⟨trimUnderscore_head _, trimUnderscore_getLast _⟩
  · intro name
    have hinv := normAccum_good (name.flatMap nfd) [] (by simp) (by simp)
    exact trimUnderscore_chain' _ hinv.2
  · intro name h
    have hall : ∀ x ∈ normAccum (name.flatMap nfd) [], x = 95 :=
      normAccum_all95 (name.flatMap nfd) [] h (by simp)
    have hdrop : (normAccum (name.flatMap nfd) []).dropWhile (fun r => r == 95) = [] :=
      List.dropWhile_eq_nil_iff.mpr (fun x hx => by simp [hall x hx])
    rw [NormalizeEnvKey, trimUnderscore_eq, hdrop]
    rfl

theorem c7_normalize_env_key_witness :
    NormalizeEnvKey [45, 46, 95] = [] :=
  c7_normalize_env_key.2.2.2.2 [45, 46, 95] (by decide)

end AsSupervisor
